import Mathlib

/-!
Shallow embedding of the `fileversion` Go package (bi-zone/go-fileversion).

The package reads a Windows version-information resource and resolves its
string properties.  The OS collaborators (`GetFileVersionInfoW`,
`VerQueryValueW`) are modelled as explicit parameters:

* the loader outcome is an `Option (List Nat)` — `none` when the OS reports
  no resource / a failed fill, `some bytes` for the loaded resource block;
* the navigator (`VerQueryValueW` together with the UTF-16 conversion of the
  sub-block path) is a function `Nav` from the sub-block path to `none`
  (the call returned 0) or `some (start, length)`, where `start` models the
  value `int(offset) - int(blockStart)` computed by `verQueryValue` and
  `length` the reported unsigned length.

Bytes are `Nat` (each < 256 in real data; none of the verified properties
need that bound).  Go strings returned to the caller are represented by
their list of runes (Unicode code points, as produced by `utf16.Decode`).

All definitions follow the current revision of the package source
(`fileversion.go`, the file whose API matches the repository README:
`DefaultLocales`, the `Locales` field, `FixedInfo()`, and `New` falling
back to `DefaultLocales`).
-/

set_option autoImplicit false

namespace fileversion

/-- Pair of a 16-bit language id and a 16-bit charset id (Go struct `Locale`
with fields `LangID LangID; CharsetID CharsetID`, both `uint16`). -/
structure Locale where
  LangID : Nat
  CharsetID : Nat
  deriving DecidableEq, Repr

/-- Go constant `LangEnglish = LangID(0x049)`. -/
def LangEnglish : Nat := 0x049

/-- Go constant `CSAscii = CharsetID(0x04e4)`. -/
def CSAscii : Nat := 0x04e4

/-- Go constant `CSUnicode = CharsetID(0x04B0)`. -/
def CSUnicode : Nat := 0x04B0

/-- Go constant `CSUnknown = CharsetID(0x0000)`. -/
def CSUnknown : Nat := 0x0000

/-- Go package variable `DefaultLocales`. -/
def DefaultLocales : List Locale :=
  [{ LangID := LangEnglish, CharsetID := CSAscii },
   { LangID := LangEnglish, CharsetID := CSUnicode },
   { LangID := LangEnglish, CharsetID := CSUnknown }]

/-- Go struct `Info`: the raw resource bytes plus the locale list. -/
structure Info where
  Locales : List Locale
  data : List Nat
  deriving DecidableEq, Repr

/-- Model of one `VerQueryValueW` call on a fixed resource block: `none` when
the call returns 0 (query failed, including a failed UTF-16 conversion of the
path), otherwise `some (start, length)` with `start = int(offset) -
int(blockStart)` (an `Int`, since a hostile reply can point before the block)
and the reported unsigned `length`. -/
abbrev Nav := String → Option (Int × Nat)

/-- Error values produced by the package (each Go error message is modelled
by one constructor). -/
inductive VError where
  /-- Loader failure in `newWithoutLocale` (size query or fill call failed). -/
  | loadFailed : VError
  /-- `VerQueryValueW` returned 0: the error returned by `proc.Call`. -/
  | queryFailed : VError
  /-- The `xerrors.New("index out of range")` error of `verQueryValue`. -/
  | corruptResource : VError
  /-- `getLocales`: failed to get the Translation property (query failed or
  zero-length data). -/
  | translationNotFound : VError
  /-- `getLocales`: "get wrong locales len in a windows object". -/
  | wrongLocalesLen : VError
  /-- `getLocales`: "get empty locales array in a windows object". -/
  | emptyLocales : VError
  /-- `GetPropertyWithLocale`: "failed to get property %q with locale %+v". -/
  | propertyNotFound : String → Locale → VError
  /-- `GetProperty`: "failed to get property %q". -/
  | getPropertyFailed : String → VError
  deriving DecidableEq, Repr

/-- Go method `verQueryValue`: ask the navigator for the sub-block, compute
`end` (`stop` here; `end` is a Lean keyword) in bytes or UTF-16 characters,
bounds-check `start < 0 || end > len(f.data)`, and slice `f.data[start:end]`.
The Go code first evaluates `&f.data[0]` for the block start, which panics on
an empty buffer; that is not modelled here, so concrete instances are taken
at non-empty buffers, the only ones the loader produces (a zero reported
size fails construction). -/
def verQueryValue (f : Info) (nav : Nav) (property : String) (isUTF16String : Bool) :
    Except VError (List Nat) :=
  match nav property with
  | none => .error .queryFailed
  | some (start, length) =>
    let stop : Int := if isUTF16String then start + 2 * (length : Int) else start + (length : Int)
    if start < 0 ∨ (f.data.length : Int) < stop then
      .error .corruptResource
    else
      .ok ((f.data.drop start.toNat).take (stop - start).toNat)

/-- Lower-case hexadecimal digit character for `n < 16`, as printed by Go
`%x` (codes 48–57 are the decimal digits, 97–102 are `a`–`f`). -/
def hexDigit (n : Nat) : Char :=
  if n < 10 then Char.ofNat (48 + n) else Char.ofNat (87 + n)

/-- Rendering of a 16-bit value by `%04x`: four zero-padded lower-case hex
digits (exactly the `%04x` output whenever `n < 0x10000`, the range of the
Go `uint16` argument). -/
def hex4 (n : Nat) : List Char :=
  [hexDigit (n / 4096 % 16), hexDigit (n / 256 % 16), hexDigit (n / 16 % 16), hexDigit (n % 16)]

/-- The locale key `fmt.Sprintf("%04x%04x", locale.LangID, locale.CharsetID)`
built in `verQueryValueString`. -/
def localeKey (l : Locale) : List Char :=
  hex4 l.LangID ++ hex4 l.CharsetID

/-- String form of `localeKey`, used to build sub-block paths. -/
def localeKeyStr (l : Locale) : String :=
  String.mk (localeKey l)

/-- The sub-block path built by `verQueryValueString`. -/
def stringFileInfoPath (locale : Locale) (property : String) : String :=
  "\\StringFileInfo\\" ++ localeKeyStr locale ++ "\\" ++ property

/-- Reinterpretation of the byte range as `len(data)/2` little-endian UTF-16
code units (a trailing odd byte is dropped, as by `n := len(data) / uint16Size`). -/
def bytesToUnits : List Nat → List Nat
  | b0 :: b1 :: rest => (b0 + 256 * b1) :: bytesToUnits rest
  | _ => []

/-- The cut of `syscall.UTF16ToString`: keep the code units before the first
NUL (`for i, v := range s { if v == 0 { s = s[:i]; break } }`). -/
def cutAtFirstNul : List Nat → List Nat
  | [] => []
  | u :: rest => if u = 0 then [] else u :: cutAtFirstNul rest

/-- Model of `unicode/utf16.Decode`: a high surrogate followed by a low
surrogate combines into one code point, an unpaired surrogate becomes
U+FFFD, anything else passes through. -/
def utf16Decode : List Nat → List Nat
  | [] => []
  | [u] => if u < 0xD800 ∨ 0xE000 ≤ u then [u] else [0xFFFD]
  | u :: u2 :: rest =>
    if u < 0xD800 ∨ 0xE000 ≤ u then
      u :: utf16Decode (u2 :: rest)
    else if u < 0xDC00 ∧ 0xDC00 ≤ u2 ∧ u2 < 0xE000 then
      (0x10000 + (u - 0xD800) * 1024 + (u2 - 0xDC00)) :: utf16Decode rest
    else
      0xFFFD :: utf16Decode (u2 :: rest)

/-- Model of `syscall.UTF16ToString`: cut at the first NUL unit, then decode;
the Go string result is represented by its rune list. -/
def utf16ToString (units : List Nat) : List Nat :=
  utf16Decode (cutAtFirstNul units)

/-- Go method `verQueryValueString`: query `\StringFileInfo\<key>\<property>`
as a UTF-16 string; on `err != nil || len(data) == 0` it returns `("", err)`
(so a successful empty reply is a success), otherwise the decoded string. -/
def verQueryValueString (f : Info) (nav : Nav) (locale : Locale) (property : String) :
    Except VError (List Nat) :=
  match verQueryValue f nav (stringFileInfoPath locale property) true with
  | .error e => .error e
  | .ok data =>
    if data.length = 0 then .ok []
    else .ok (utf16ToString (bytesToUnits data))

/-- Go method `GetPropertyWithLocale`: wrap any `verQueryValueString` error
into the "failed to get property … with locale …" error. -/
def GetPropertyWithLocale (f : Info) (nav : Nav) (propertyName : String) (locale : Locale) :
    Except VError (List Nat) :=
  match verQueryValueString f nav locale propertyName with
  | .error _ => .error (.propertyNotFound propertyName locale)
  | .ok property => .ok property

/-- One `for _, id := range locales { if ok return }` loop of `GetProperty`:
the first locale whose `GetPropertyWithLocale` succeeds, with its value. -/
def firstLocaleHit (f : Info) (nav : Nav) (propertyName : String) :
    List Locale → Option (List Nat)
  | [] => none
  | l :: rest =>
    match GetPropertyWithLocale f nav propertyName l with
    | .ok property => some property
    | .error _ => firstLocaleHit f nav propertyName rest

/-- Go method `GetProperty`: try `f.Locales` in order, then `DefaultLocales`
in order, returning the first success; otherwise the
"failed to get property %q" error. -/
def GetProperty (f : Info) (nav : Nav) (propertyName : String) : Except VError (List Nat) :=
  match firstLocaleHit f nav propertyName f.Locales with
  | some property => .ok property
  | none =>
    match firstLocaleHit f nav propertyName DefaultLocales with
    | some property => .ok property
    | none => .error (.getPropertyFailed propertyName)

/-- Reinterpretation of the Translation byte range as packed `Locale` values
(`unsafe.Sizeof(Locale{}) = 4`: two little-endian `uint16`). -/
def decodeLocales : List Nat → List Locale
  | b0 :: b1 :: b2 :: b3 :: rest =>
    { LangID := b0 + 256 * b1, CharsetID := b2 + 256 * b3 } :: decodeLocales rest
  | _ => []

/-- Go method `getLocales`: query `\VarFileInfo\Translation` and decode it as
a packed `[]Locale`, rejecting failed/empty replies, lengths that are not a
multiple of 4, and zero entries. -/
def getLocales (f : Info) (nav : Nav) : Except VError (List Locale) :=
  match verQueryValue f nav "\\VarFileInfo\\Translation" false with
  | .error _ => .error .translationNotFound
  | .ok data =>
    if data.length = 0 then .error .translationNotFound
    else if data.length % 4 ≠ 0 then .error .wrongLocalesLen
    else if data.length / 4 = 0 then .error .emptyLocales
    else .ok (decodeLocales data)

/-- Go function `New`: on loader success, set `Locales` from `getLocales`,
falling back to `DefaultLocales` when discovery fails. -/
def New (load : Option (List Nat)) (nav : Nav) : Except VError Info :=
  match load with
  | none => .error .loadFailed
  | some bytes =>
    let info : Info := { Locales := [], data := bytes }
    match getLocales info nav with
    | .ok locales => .ok { info with Locales := locales }
    | .error _ => .ok { info with Locales := DefaultLocales }

/-- Go function `NewWithLocale`: on loader success, pin the single given
locale. -/
def NewWithLocale (load : Option (List Nat)) (locale : Locale) : Except VError Info :=
  match load with
  | none => .error .loadFailed
  | some bytes => .ok { Locales := [locale], data := bytes }

/-- Go struct `FileVersion` (four `uint16` components). -/
structure FileVersion where
  Major : Nat
  Minor : Nat
  Patch : Nat
  Build : Nat
  deriving DecidableEq, Repr

/-- Alias for `FileVersion` (the spec's "VersionQuad"), needed because the
`FixedFileInfo` field of the same name would shadow the type name. -/
abbrev VersionQuad := FileVersion

/-- Go struct `FixedFileInfo`. -/
structure FixedFileInfo where
  FileVersion : VersionQuad
  ProductVersion : VersionQuad
  FileFlagsMask : Nat
  FileFlags : Nat
  FileOs : Nat
  FileType : Nat
  FileSubType : Nat
  FileDateMS : Nat
  FileDateLS : Nat
  deriving DecidableEq, Repr

/-- The zero value `FixedFileInfo{}` returned on a failed root query. -/
def FixedFileInfo.zero : FixedFileInfo :=
  { FileVersion := ⟨0, 0, 0, 0⟩
    ProductVersion := ⟨0, 0, 0, 0⟩
    FileFlagsMask := 0
    FileFlags := 0
    FileOs := 0
    FileType := 0
    FileSubType := 0
    FileDateMS := 0
    FileDateLS := 0 }

/-- Little-endian `uint32` field of the raw `rawFixedFileInfo` struct at byte
offset `off` of the returned range; a byte past the end of the range (the
unsafe cast reads 52 bytes regardless of the reported length) is modelled as
zero. -/
def le32 (data : List Nat) (off : Nat) : Nat :=
  data.getD off 0 + 256 * data.getD (off + 1) 0
    + 65536 * data.getD (off + 2) 0 + 16777216 * data.getD (off + 3) 0

/-- The component extraction of `FixedInfo`: `Major = uint16(ms >> 16)`,
`Minor = uint16(ms & 0xffff)`, `Patch = uint16(ls & 0xffff)`,
`Build = uint16(ls >> 16)` (the `% 65536` models the `uint16` casts). -/
def fileVersionOfWords (ms ls : Nat) : FileVersion :=
  { Major := ms / 65536 % 65536
    Minor := ms % 65536
    Patch := ls % 65536
    Build := ls / 65536 % 65536 }

/-- Go method `FixedInfo`: query the root path `\`; on failure return the zero
`FixedFileInfo`; on success reinterpret the range as `rawFixedFileInfo`
(signature at 0, struct version at 4, the thirteen fields at offsets 0..48)
and repack.  `none` models the Go runtime panic of `&data[0]` when the
returned range is empty. -/
def FixedInfo (f : Info) (nav : Nav) : Option FixedFileInfo :=
  match verQueryValue f nav "\\" false with
  | .error _ => some .zero
  | .ok data =>
    if data.length = 0 then none
    else some
      { FileVersion := fileVersionOfWords (le32 data 8) (le32 data 12)
        ProductVersion := fileVersionOfWords (le32 data 16) (le32 data 20)
        FileFlagsMask := le32 data 24
        FileFlags := le32 data 28
        FileOs := le32 data 32
        FileType := le32 data 36
        FileSubType := le32 data 40
        FileDateMS := le32 data 44
        FileDateLS := le32 data 48 }

/-- Value of one hexadecimal digit character (digits, lower- and upper-case
letters), the inverse direction of C5's round-trip. -/
def parseHexDigit (c : Char) : Option Nat :=
  if 48 ≤ c.toNat ∧ c.toNat ≤ 57 then some (c.toNat - 48)
  else if 97 ≤ c.toNat ∧ c.toNat ≤ 102 then some (c.toNat - 87)
  else if 65 ≤ c.toNat ∧ c.toNat ≤ 70 then some (c.toNat - 55)
  else none

/-- Value of a 4-hex-digit group. -/
def parseHex4 : List Char → Option Nat
  | [c0, c1, c2, c3] => do
    let d0 ← parseHexDigit c0
    let d1 ← parseHexDigit c1
    let d2 ← parseHexDigit c2
    let d3 ← parseHexDigit c3
    some (4096 * d0 + 256 * d1 + 16 * d2 + d3)
  | _ => none

/-- Parse an 8-hex-digit locale key back into its (language, charset) pair. -/
def parseLocaleKey (cs : List Char) : Option Locale :=
  if cs.length = 8 then
    match parseHex4 (cs.take 4), parseHex4 (cs.drop 4) with
    | some lang, some charset => some { LangID := lang, CharsetID := charset }
    | _, _ => none
  else none

/-- Character class of the key digits: lower-case hexadecimal. -/
def isLowerHexDigit (c : Char) : Bool :=
  (48 ≤ c.toNat && c.toNat ≤ 57) || (97 ≤ c.toNat && c.toNat ≤ 102)

/-- Search order described by the spec for `GetProperty`: the handle's locale
sequence, then the built-in defaults with every already-tried locale skipped;
the first success under this total order, else the error naming the property. -/
def specGetProperty (f : Info) (nav : Nav) (propertyName : String) : Except VError (List Nat) :=
  match firstLocaleHit f nav propertyName
      (f.Locales ++ DefaultLocales.filter (fun d => decide (d ∉ f.Locales))) with
  | some property => .ok property
  | none => .error (.getPropertyFailed propertyName)

/-! Helper lemmas about the hex rendering. -/

theorem hexDigit_isLowerHex (d : Nat) (h : d < 16) : isLowerHexDigit (hexDigit d) = true := by
  interval_cases d <;> decide

theorem parseHexDigit_hexDigit (d : Nat) (h : d < 16) : parseHexDigit (hexDigit d) = some d := by
  interval_cases d <;> decide

theorem parseHex4_hex4 (n : Nat) (h : n < 65536) : parseHex4 (hex4 n) = some n := by
  have h0 := parseHexDigit_hexDigit (n / 4096 % 16) (by omega)
  have h1 := parseHexDigit_hexDigit (n / 256 % 16) (by omega)
  have h2 := parseHexDigit_hexDigit (n / 16 % 16) (by omega)
  have h3 := parseHexDigit_hexDigit (n % 16) (by omega)
  simp only [hex4, parseHex4, h0, h1, h2, h3, Option.bind_eq_bind, Option.some_bind,
    Option.some.injEq]
  omega

/-- C5: for every pair of 16-bit language and charset identifiers, the
rendered locale key is exactly 8 lower-case hexadecimal digits (4 for the
language id then 4 for the charset id, zero-padded), and parsing the key back
recovers the original pair. -/
theorem localeKey_roundtrip (lang charset : Nat) (hl : lang < 65536) (hc : charset < 65536) :
    (localeKey ⟨lang, charset⟩).length = 8
    ∧ (∀ c ∈ localeKey ⟨lang, charset⟩, isLowerHexDigit c = true)
    ∧ parseLocaleKey (localeKey ⟨lang, charset⟩) = some ⟨lang, charset⟩ := by
  refine ⟨by simp [localeKey, hex4], ?_, ?_⟩
  · intro c hmem
    simp only [localeKey, hex4, List.mem_append, List.mem_cons, List.not_mem_nil, or_false] at hmem
    rcases hmem with (rfl | rfl | rfl | rfl) | (rfl | rfl | rfl | rfl) <;>
      exact hexDigit_isLowerHex _ (by omega)
  · have e1 : (localeKey ⟨lang, charset⟩).take 4 = hex4 lang := by
      simp [localeKey, hex4]
    have e2 : (localeKey ⟨lang, charset⟩).drop 4 = hex4 charset := by
      simp [localeKey, hex4]
    have e3 : (localeKey ⟨lang, charset⟩).length = 8 := by simp [localeKey, hex4]
    rw [parseLocaleKey, if_pos e3, e1, e2, parseHex4_hex4 lang hl, parseHex4_hex4 charset hc]

/-- C5 witness: the round-trip at the concrete locale (0x409, 0x4b0). -/
theorem localeKey_roundtrip_witness :
    1033 < 65536 ∧ 1200 < 65536
    ∧ ((localeKey ⟨1033, 1200⟩).length = 8
      ∧ (∀ c ∈ localeKey ⟨1033, 1200⟩, isLowerHexDigit c = true)
      ∧ parseLocaleKey (localeKey ⟨1033, 1200⟩) = some ⟨1033, 1200⟩) :=
  ⟨by decide, by decide, localeKey_roundtrip 1033 1200 (by decide) (by decide)⟩

/-- C4: for every pair of 32-bit words decoded into the four 16-bit
components, re-packing the components (major and minor into the two halves of
the MS word, build and patch into the two halves of the LS word, exactly as
the decoder assigned them) reproduces the original words. -/
theorem fileVersionOfWords_roundtrip (ms ls : Nat)
    (hms : ms < 4294967296) (hls : ls < 4294967296) :
    (fileVersionOfWords ms ls).Major * 65536 + (fileVersionOfWords ms ls).Minor = ms
    ∧ (fileVersionOfWords ms ls).Build * 65536 + (fileVersionOfWords ms ls).Patch = ls := by
  simp only [fileVersionOfWords]
  omega

/-- C4 witness: the round-trip at the concrete words 0x00020001 and
0x00040003 (version 2.1.3.4 in the decoder's assignment). -/
theorem fileVersionOfWords_roundtrip_witness :
    131073 < 4294967296 ∧ 262147 < 4294967296
    ∧ ((fileVersionOfWords 131073 262147).Major * 65536
        + (fileVersionOfWords 131073 262147).Minor = 131073
      ∧ (fileVersionOfWords 131073 262147).Build * 65536
        + (fileVersionOfWords 131073 262147).Patch = 262147) :=
  ⟨by decide, by decide, fileVersionOfWords_roundtrip 131073 262147 (by decide) (by decide)⟩

/-- C3: for every resource buffer and navigator reply, when the reported
range does not lie entirely inside the buffer, `verQueryValue` returns the
distinct `corruptResource` error; a byte slice is returned only when the
whole range is in bounds, and each of its bytes is read from an in-bounds
index of the buffer. -/
theorem verQueryValue_bounds (f : Info) (nav : Nav) (property : String) (isUTF16String : Bool)
    (start : Int) (length : Nat) (h : nav property = some (start, length)) :
    (¬ (0 ≤ start ∧ start + (if isUTF16String then 2 * (length : Int) else (length : Int))
          ≤ (f.data.length : Int)) →
      verQueryValue f nav property isUTF16String = .error .corruptResource)
    ∧ (∀ bs, verQueryValue f nav property isUTF16String = .ok bs →
        (0 ≤ start ∧ start + (if isUTF16String then 2 * (length : Int) else (length : Int))
            ≤ (f.data.length : Int))
        ∧ ∀ i, i < bs.length →
            start.toNat + i < f.data.length ∧ bs[i]? = f.data[start.toNat + i]?) := by
  have hslice : ∀ s k i : Nat, i < ((f.data.drop s).take k).length →
      s + i < f.data.length ∧ ((f.data.drop s).take k)[i]? = f.data[s + i]? := by
    intro s k i hi
    have hlen : ((f.data.drop s).take k).length = min k (f.data.length - s) := by simp
    rw [hlen] at hi
    refine ⟨by omega, ?_⟩
    rw [List.getElem?_take_of_lt (by omega), List.getElem?_drop]
  have main : ∀ stop : Int, start ≤ stop →
      (¬ (0 ≤ start ∧ stop ≤ (f.data.length : Int)) →
        (if start < 0 ∨ (f.data.length : Int) < stop then
            (.error .corruptResource : Except VError (List Nat))
          else .ok ((f.data.drop start.toNat).take ((stop - start).toNat)))
          = .error .corruptResource)
      ∧ ∀ bs, (if start < 0 ∨ (f.data.length : Int) < stop then
            (.error .corruptResource : Except VError (List Nat))
          else .ok ((f.data.drop start.toNat).take ((stop - start).toNat))) = .ok bs →
          (0 ≤ start ∧ stop ≤ (f.data.length : Int))
          ∧ ∀ i, i < bs.length →
              start.toNat + i < f.data.length ∧ bs[i]? = f.data[start.toNat + i]? := by
    intro stop hss
    by_cases hP : 0 ≤ start ∧ stop ≤ (f.data.length : Int)
    · have hcond : ¬ (start < 0 ∨ (f.data.length : Int) < stop) := by omega
      rw [if_neg hcond]
      refine ⟨fun hcontra => absurd hP hcontra, fun bs hbs => ?_⟩
      have hbs' : (f.data.drop start.toNat).take ((stop - start).toNat) = bs := by
        injection hbs
      subst hbs'
      exact ⟨hP, fun i hi => hslice _ _ i hi⟩
    · have hcond : start < 0 ∨ (f.data.length : Int) < stop := by omega
      rw [if_pos hcond]
      exact ⟨fun _ => rfl, fun bs hbs => by simp at hbs⟩
  cases isUTF16String
  · simpa [verQueryValue, h] using main (start + (length : Int)) (by omega)
  · simpa [verQueryValue, h] using main (start + 2 * (length : Int)) (by omega)

/-- C3 witness: an out-of-bounds reply (start 1, length 5 against a 3-byte
buffer) produces the corruptResource error. -/
theorem verQueryValue_bounds_witness :
    verQueryValue ⟨[], [1, 2, 3]⟩ (fun _ => some (1, 5)) "x" false = .error .corruptResource :=
  (verQueryValue_bounds ⟨[], [1, 2, 3]⟩ (fun _ => some (1, 5)) "x" false 1 5 rfl).1 (by decide)

/-- C7 evaluation: a failed root query yields the zero `FixedFileInfo`, but a
successful zero-length reply for the root path `\` makes the Go code panic
(`&data[0]` indexes an empty slice), modelled as `none` — the accessor does
not "never fail". -/
theorem FixedInfo_empty_root_panics :
    FixedInfo ⟨[], []⟩ (fun _ => none) = some .zero
    ∧ FixedInfo ⟨[], []⟩ (fun _ => some (0, 0)) = none :=
  ⟨rfl, rfl⟩

/-- C2 counterexample: on a (non-empty, loader-producible) one-byte resource
buffer, a successful navigator reply with zero length for the string
sub-block makes `GetPropertyWithLocale` succeed with the empty string
instead of failing, refuting "returns an error exactly when the navigator
query fails or yields empty data". -/
theorem GetPropertyWithLocale_emptyData_success :
    verQueryValue ⟨[], [0]⟩ (fun _ => some (0, 0))
        (stringFileInfoPath ⟨1033, 1200⟩ "ProductName") true = .ok []
    ∧ GetPropertyWithLocale ⟨[], [0]⟩ (fun _ => some (0, 0)) "ProductName" ⟨1033, 1200⟩
        = .ok [] :=
  ⟨rfl, rfl⟩

/-- C2 (amended): `GetPropertyWithLocale` builds the sub-block path
`\StringFileInfo\<8-hex-digit key>\<name>` and fails — with the error naming
the property and locale — exactly when the navigator query fails (including
an out-of-bounds range); a successful query returns the stored data decoded
from UTF-16 code units, the empty reply decoding to the empty string. -/
theorem GetPropertyWithLocale_spec (f : Info) (nav : Nav) (propertyName : String)
    (locale : Locale) :
    ((GetPropertyWithLocale f nav propertyName locale).isOk
        = (verQueryValue f nav (stringFileInfoPath locale propertyName) true).isOk)
    ∧ (∀ data, verQueryValue f nav (stringFileInfoPath locale propertyName) true = .ok data →
        GetPropertyWithLocale f nav propertyName locale
          = .ok (utf16ToString (bytesToUnits data)))
    ∧ (∀ e, verQueryValue f nav (stringFileInfoPath locale propertyName) true = .error e →
        GetPropertyWithLocale f nav propertyName locale
          = .error (.propertyNotFound propertyName locale)) := by
  unfold GetPropertyWithLocale verQueryValueString
  cases hq : verQueryValue f nav (stringFileInfoPath locale propertyName) true with
  | error e => simp [Except.isOk, Except.toBool]
  | ok data =>
    refine ⟨?_, ?_, ?_⟩
    · by_cases hlen : data.length = 0 <;> simp [hlen, Except.isOk, Except.toBool]
    · intro data2 hdata2
      have hd : data = data2 := by injection hdata2
      subst hd
      by_cases hlen : data.length = 0
      · have hnil : data = [] := List.length_eq_zero.mp hlen
        subst hnil
        simp [utf16ToString, bytesToUnits, cutAtFirstNul, utf16Decode]
      · simp [hlen]
    · intro e he
      simp at he

/-- C2 witness: the amended success equation at a concrete one-character
resource (the byte pair 66,0 decoding to "B"). -/
theorem GetPropertyWithLocale_spec_witness :
    GetPropertyWithLocale ⟨[], [66, 0]⟩ (fun _ => some (0, 1)) "x" ⟨1033, 1200⟩ = .ok [66] :=
  (GetPropertyWithLocale_spec ⟨[], [66, 0]⟩ (fun _ => some (0, 1)) "x" ⟨1033, 1200⟩).2.1
    [66, 0] rfl

/-! Helper lemmas about the Translation decoding. -/

theorem decodeLocales_length : ∀ data : List Nat, (decodeLocales data).length = data.length / 4
  | [] => by simp [decodeLocales]
  | [_] => by simp [decodeLocales]
  | [_, _] => by simp [decodeLocales]
  | [_, _, _] => by simp [decodeLocales]
  | b0 :: b1 :: b2 :: b3 :: rest => by
    simp only [decodeLocales, List.length_cons, decodeLocales_length rest]
    omega

theorem decodeLocales_getElem : ∀ (data : List Nat) (i : Nat), i < data.length / 4 →
    (decodeLocales data)[i]? =
      some { LangID := data.getD (4*i) 0 + 256 * data.getD (4*i+1) 0,
             CharsetID := data.getD (4*i+2) 0 + 256 * data.getD (4*i+3) 0 }
  | [], i, h => by simp only [List.length_nil, List.length_cons] at h; omega
  | [_], i, h => by simp only [List.length_nil, List.length_cons] at h; omega
  | [_, _], i, h => by simp only [List.length_nil, List.length_cons] at h; omega
  | [_, _, _], i, h => by simp only [List.length_nil, List.length_cons] at h; omega
  | b0 :: b1 :: b2 :: b3 :: rest, 0, _ => by
    simp [decodeLocales, List.getD]
  | b0 :: b1 :: b2 :: b3 :: rest, (i+1), h => by
    have hi : i < rest.length / 4 := by
      simp only [List.length_cons] at h
      omega
    have ih := decodeLocales_getElem rest i hi
    have e0 : (b0 :: b1 :: b2 :: b3 :: rest).getD (4*(i+1)) 0 = rest.getD (4*i) 0 := by
      rw [show 4*(i+1) = (4*i) + 1 + 1 + 1 + 1 from by ring]
      simp [List.getD_cons_succ]
    have e1 : (b0 :: b1 :: b2 :: b3 :: rest).getD (4*(i+1)+1) 0 = rest.getD (4*i+1) 0 := by
      rw [show 4*(i+1)+1 = (4*i+1) + 1 + 1 + 1 + 1 from by ring]
      simp [List.getD_cons_succ]
    have e2 : (b0 :: b1 :: b2 :: b3 :: rest).getD (4*(i+1)+2) 0 = rest.getD (4*i+2) 0 := by
      rw [show 4*(i+1)+2 = (4*i+2) + 1 + 1 + 1 + 1 from by ring]
      simp [List.getD_cons_succ]
    have e3 : (b0 :: b1 :: b2 :: b3 :: rest).getD (4*(i+1)+3) 0 = rest.getD (4*i+3) 0 := by
      rw [show 4*(i+1)+3 = (4*i+3) + 1 + 1 + 1 + 1 from by ring]
      simp [List.getD_cons_succ]
    simp only [decodeLocales, List.getElem?_cons_succ]
    rw [e0, e1, e2, e3]
    exact ih

theorem getLocales_ok_ne_nil (f : Info) (nav : Nav) (locales : List Locale)
    (h : getLocales f nav = .ok locales) : locales ≠ [] := by
  unfold getLocales at h
  cases hq : verQueryValue f nav "\\VarFileInfo\\Translation" false with
  | error e => rw [hq] at h; simp at h
  | ok data =>
    rw [hq] at h
    by_cases h0 : data.length = 0
    · simp [h0] at h
    · by_cases h4 : data.length % 4 ≠ 0
      · simp [h0, h4] at h
      · by_cases hd : data.length / 4 = 0
        · simp [h0, h4, hd] at h
        · simp [h0, h4, hd] at h
          intro hnil
          have hlen := decodeLocales_length data
          rw [h, hnil] at hlen
          simp at hlen
          omega

/-- C8: when the Translation sub-block is well-formed (non-empty, length a
multiple of 4), `getLocales` decodes it as the sequence of (language,
codepage) little-endian 16-bit pairs in exactly stored order, of length
`len(data)/4`, accepting any values. -/
theorem getLocales_wellFormed (f : Info) (nav : Nav) (data : List Nat)
    (hq : verQueryValue f nav "\\VarFileInfo\\Translation" false = .ok data)
    (hne : data ≠ []) (hmod : data.length % 4 = 0) :
    getLocales f nav = .ok (decodeLocales data)
    ∧ (decodeLocales data).length = data.length / 4
    ∧ ∀ i, i < data.length / 4 →
        (decodeLocales data)[i]? =
          some { LangID := data.getD (4*i) 0 + 256 * data.getD (4*i+1) 0,
                 CharsetID := data.getD (4*i+2) 0 + 256 * data.getD (4*i+3) 0 } := by
  have hlen : data.length ≠ 0 := fun hcontra => hne (List.length_eq_zero.mp hcontra)
  have hdiv : data.length / 4 ≠ 0 := by omega
  refine ⟨?_, decodeLocales_length data, fun i hi => decodeLocales_getElem data i hi⟩
  unfold getLocales
  rw [hq]
  simp [hlen, hmod, hdiv]

/-- C8 witness: an 8-byte Translation block decoding to the two stored
locales (513, 1027) and (1541, 2055), in order. -/
theorem getLocales_wellFormed_witness :
    getLocales ⟨[], [1, 2, 3, 4, 5, 6, 7, 8]⟩ (fun _ => some (0, 8))
      = .ok [⟨513, 1027⟩, ⟨1541, 2055⟩] :=
  (getLocales_wellFormed ⟨[], [1, 2, 3, 4, 5, 6, 7, 8]⟩ (fun _ => some (0, 8))
    [1, 2, 3, 4, 5, 6, 7, 8] rfl (by decide) (by decide)).1

/-- C6: whenever the Translation query fails, yields empty data, or yields a
length that is not a multiple of 4 (zero decoded entries are only possible
for empty data), locale discovery errors out and `New` still succeeds, with
the locale list falling back to the three built-in defaults. -/
theorem New_fallback_defaultLocales (bytes : List Nat) (nav : Nav)
    (h : ∀ data, verQueryValue ⟨[], bytes⟩ nav "\\VarFileInfo\\Translation" false = .ok data →
          data.length = 0 ∨ data.length % 4 ≠ 0) :
    (∃ e, getLocales ⟨[], bytes⟩ nav = .error e)
    ∧ New (some bytes) nav = .ok ⟨DefaultLocales, bytes⟩ := by
  have herr : ∃ e, getLocales ⟨[], bytes⟩ nav = .error e := by
    unfold getLocales
    cases hq : verQueryValue ⟨[], bytes⟩ nav "\\VarFileInfo\\Translation" false with
    | error e => exact ⟨.translationNotFound, rfl⟩
    | ok data =>
      rcases h data hq with hlen | hmod
      · exact ⟨.translationNotFound, by simp [hlen]⟩
      · have hlen0 : data.length ≠ 0 := by omega
        exact ⟨.wrongLocalesLen, by simp [hlen0, hmod]⟩
  refine ⟨herr, ?_⟩
  obtain ⟨e, he⟩ := herr
  simp only [New]
  rw [he]

/-- C6 witness: with a navigator that fails every query, `New` succeeds and
assigns the three default locales. -/
theorem New_fallback_defaultLocales_witness :
    New (some [0]) (fun _ => none) = .ok ⟨DefaultLocales, [0]⟩ :=
  (New_fallback_defaultLocales [0] (fun _ => none) (fun _ hdata => nomatch hdata)).2

/-- C10: every handle successfully returned by New has a non-empty locale
list — the discovered sequence (non-empty since discovery errors on zero
entries) or the three-element default list — and NewWithLocale pins exactly
the single supplied locale. -/
theorem construction_locales_nonempty :
    (∀ (load : Option (List Nat)) (nav : Nav) (info : Info), New load nav = .ok info →
       info.Locales ≠ []
       ∧ (info.Locales = DefaultLocales
          ∨ getLocales ⟨[], info.data⟩ nav = .ok info.Locales))
    ∧ (∀ (load : Option (List Nat)) (locale : Locale) (info : Info),
        NewWithLocale load locale = .ok info → info.Locales = [locale]) := by
  constructor
  · intro load nav info hnew
    cases load with
    | none => simp [New] at hnew
    | some bytes =>
      simp only [New] at hnew
      cases hg : getLocales ⟨[], bytes⟩ nav with
      | ok locales =>
        rw [hg] at hnew
        have heq : ({ Locales := locales, data := bytes } : Info) = info := by
          injection hnew
        subst heq
        exact ⟨getLocales_ok_ne_nil _ nav locales hg, Or.inr hg⟩
      | error e =>
        rw [hg] at hnew
        have heq : ({ Locales := DefaultLocales, data := bytes } : Info) = info := by
          injection hnew
        subst heq
        exact ⟨by simp [DefaultLocales], Or.inl rfl⟩
  · intro load locale info hnew
    cases load with
    | none => simp [NewWithLocale] at hnew
    | some bytes =>
      simp only [NewWithLocale] at hnew
      have heq : ({ Locales := [locale], data := bytes } : Info) = info := by
        injection hnew
      subst heq
      rfl

/-- C10 witness: concrete handles built by New (with failing discovery) and
by NewWithLocale. -/
theorem construction_locales_nonempty_witness :
    (Info.Locales ⟨DefaultLocales, [1]⟩ ≠ [])
    ∧ Info.Locales ⟨[⟨7, 8⟩], [1]⟩ = [⟨7, 8⟩] :=
  ⟨(construction_locales_nonempty.1 (some [1]) (fun _ => none) ⟨DefaultLocales, [1]⟩ rfl).1,
   construction_locales_nonempty.2 (some [1]) ⟨7, 8⟩ ⟨[⟨7, 8⟩], [1]⟩ rfl⟩

/-! Helper lemmas about the UTF-16 decoding. -/

theorem cutAtFirstNul_eq_takeWhile : ∀ us : List Nat,
    cutAtFirstNul us = us.takeWhile (fun u => u != 0)
  | [] => rfl
  | u :: rest => by
    by_cases h : u = 0
    · simp [cutAtFirstNul, List.takeWhile_cons, h]
    · simp [cutAtFirstNul, List.takeWhile_cons, h, cutAtFirstNul_eq_takeWhile rest]

theorem utf16Decode_pos (us : List Nat) (h : ∀ u ∈ us, u ≠ 0) :
    ∀ r ∈ utf16Decode us, r ≠ 0 := by
  induction us using utf16Decode.induct with
  | case1 => simp [utf16Decode]
  | case2 u h1 =>
    rw [utf16Decode, if_pos h1]
    intro r hr
    simp at hr
    subst hr
    exact h r (by simp)
  | case3 u h1 =>
    rw [utf16Decode, if_neg h1]
    intro r hr
    simp at hr
    omega
  | case4 u u2 rest h1 ih =>
    rw [utf16Decode, if_pos h1]
    intro r hr
    rcases List.mem_cons.mp hr with rfl | hr2
    · exact h r (by simp)
    · exact ih (fun v hv => h v (List.mem_cons_of_mem u hv)) r hr2
  | case5 u u2 rest h1 h2 ih =>
    rw [utf16Decode, if_neg h1, if_pos h2]
    intro r hr
    rcases List.mem_cons.mp hr with hr1 | hr2
    · omega
    · exact ih (fun v hv => h v (List.mem_cons_of_mem u (List.mem_cons_of_mem u2 hv))) r hr2
  | case6 u u2 rest h1 h2 ih =>
    rw [utf16Decode, if_neg h1, if_neg h2]
    intro r hr
    rcases List.mem_cons.mp hr with hr1 | hr2
    · omega
    · exact ih (fun v hv => h v (List.mem_cons_of_mem u hv)) r hr2

/-- C9: for every successful string query, the returned string is the UTF-16
decoding of the stored code units truncated at the first NUL unit — data
after a NUL terminator is dropped — and the result never contains a NUL. -/
theorem verQueryValueString_nul_truncation (f : Info) (nav : Nav) (locale : Locale)
    (property : String) (data : List Nat)
    (hq : verQueryValue f nav (stringFileInfoPath locale property) true = .ok data) :
    verQueryValueString f nav locale property
      = .ok (utf16Decode ((bytesToUnits data).takeWhile (fun u => u != 0)))
    ∧ ∀ r ∈ utf16Decode ((bytesToUnits data).takeWhile (fun u => u != 0)), r ≠ 0 := by
  have hnul : ∀ u ∈ (bytesToUnits data).takeWhile (fun u => u != 0), u ≠ 0 := by
    intro u hu
    simpa using List.mem_takeWhile_imp hu
  refine ⟨?_, utf16Decode_pos _ hnul⟩
  simp only [verQueryValueString, hq]
  by_cases hlen : data.length = 0
  · have hnil : data = [] := List.length_eq_zero.mp hlen
    subst hnil
    simp [bytesToUnits, utf16Decode]
  · simp [hlen, utf16ToString, cutAtFirstNul_eq_takeWhile]

/-- C9 witness: the byte range 65,0,0,0,66,0 (units 65, NUL, 66) decodes to
just "A" — the trailing 66 after the NUL is dropped. -/
theorem verQueryValueString_nul_truncation_witness :
    verQueryValueString ⟨[], [65, 0, 0, 0, 66, 0]⟩ (fun _ => some (0, 3)) ⟨1033, 1200⟩ "x"
      = .ok [65] :=
  (verQueryValueString_nul_truncation ⟨[], [65, 0, 0, 0, 66, 0]⟩ (fun _ => some (0, 3))
    ⟨1033, 1200⟩ "x" [65, 0, 0, 0, 66, 0] rfl).1

/-! Helper lemmas for the GetProperty search order. -/

theorem firstLocaleHit_append (f : Info) (nav : Nav) (name : String) :
    ∀ A B : List Locale, firstLocaleHit f nav name (A ++ B)
      = match firstLocaleHit f nav name A with
        | some p => some p
        | none => firstLocaleHit f nav name B
  | [], B => by simp [firstLocaleHit]
  | l :: A, B => by
    simp only [List.cons_append, firstLocaleHit]
    cases GetPropertyWithLocale f nav name l with
    | ok p => rfl
    | error e => simpa using firstLocaleHit_append f nav name A B

theorem firstLocaleHit_none_fail (f : Info) (nav : Nav) (name : String) :
    ∀ A : List Locale, firstLocaleHit f nav name A = none →
      ∀ l ∈ A, ∃ e, GetPropertyWithLocale f nav name l = .error e
  | [], _, l, hl => by simp at hl
  | a :: A, h, l, hl => by
    rw [firstLocaleHit] at h
    cases hg : GetPropertyWithLocale f nav name a with
    | ok p => rw [hg] at h; simp at h
    | error e =>
      rw [hg] at h
      simp at h
      rcases List.mem_cons.mp hl with rfl | hl2
      · exact ⟨e, hg⟩
      · exact firstLocaleHit_none_fail f nav name A h l hl2

theorem firstLocaleHit_filter (f : Info) (nav : Nav) (name : String) (A : List Locale)
    (hA : ∀ l ∈ A, ∃ e, GetPropertyWithLocale f nav name l = .error e) :
    ∀ B : List Locale,
      firstLocaleHit f nav name (B.filter (fun d => decide (d ∉ A)))
        = firstLocaleHit f nav name B
  | [] => by simp
  | b :: B => by
    by_cases hb : b ∈ A
    · obtain ⟨e, he⟩ := hA b hb
      have hpb : (decide (b ∉ A)) = false := by simp [hb]
      rw [List.filter_cons, hpb]
      simp only [Bool.false_eq_true, if_false]
      rw [firstLocaleHit_filter f nav name A hA B]
      conv_rhs => rw [firstLocaleHit, he]
    · have hpb : (decide (b ∉ A)) = true := by simp [hb]
      rw [List.filter_cons, hpb]
      simp only [if_true]
      cases hg : GetPropertyWithLocale f nav name b with
      | ok p => simp [firstLocaleHit, hg]
      | error e =>
        simp only [firstLocaleHit, hg]
        exact firstLocaleHit_filter f nav name A hA B

/-- C1: `GetProperty` is extensionally the spec's fallback search — first
success over the handle's locale sequence followed by the three built-in
default locales with already-tried entries skipped, and the error naming the
queried property when every attempt fails.  (The code re-tries duplicated
default locales instead of skipping them, but a failed locale fails again,
so the result coincides.) -/
theorem GetProperty_eq_specGetProperty (f : Info) (nav : Nav) (propertyName : String) :
    GetProperty f nav propertyName = specGetProperty f nav propertyName := by
  unfold GetProperty specGetProperty
  rw [firstLocaleHit_append f nav propertyName f.Locales
    (DefaultLocales.filter (fun d => decide (d ∉ f.Locales)))]
  cases h1 : firstLocaleHit f nav propertyName f.Locales with
  | some p => rfl
  | none =>
    rw [firstLocaleHit_filter f nav propertyName f.Locales
      (firstLocaleHit_none_fail f nav propertyName f.Locales h1) DefaultLocales]

end fileversion
